import Mathlib

/-!
Shallow embedding of the `btf` Brainfuck interpreter (crates `btf_types` and
`btf_interp`) and proofs about its specification.

Cells are modelled as `Nat` values kept below 256 by explicit `% 256`
arithmetic, mirroring Rust `u8` wrapping semantics.  The `HashMap` bracket
map is modelled as an association list where insertion prepends and lookup
takes the first match (so insertion overwrites, as for a hash map).  Byte
streams are modelled as lists of bytes: reading consumes the head of the
input list, writing appends to the output list.
-/

/-- The eight BF instructions, mirroring `btf_types::RawInstructions`. -/
inductive RawInstructions where
  | incrementDataPointer
  | decrementDataPointer
  | incrementByte
  | decrementByte
  | outputByte
  | acceptByte
  | zeroJump
  | nonZeroJump
deriving DecidableEq, Repr

/-- Conversion of a source character to an instruction,
mirroring `TryFrom<char> for RawInstructions` (`None` = comment char). -/
def RawInstructions.tryFrom (c : Char) : Option RawInstructions :=
  if c = '<' then some .decrementDataPointer
  else if c = '>' then some .incrementDataPointer
  else if c = '+' then some .incrementByte
  else if c = '-' then some .decrementByte
  else if c = '.' then some .outputByte
  else if c = ',' then some .acceptByte
  else if c = '[' then some .zeroJump
  else if c = ']' then some .nonZeroJump
  else none

/-- An instruction together with its source location,
mirroring `btf_types::IntructionPosition`. -/
structure IntructionPosition where
  instruction : RawInstructions
  line : Nat
  position : Nat
deriving DecidableEq, Repr

instance : Inhabited IntructionPosition :=
  ⟨{ instruction := .incrementDataPointer, line := 0, position := 0 }⟩

/-- Association-list model of `HashMap<usize, usize>` lookup:
first binding for the key wins. -/
def mapGet : List (Nat × Nat) → Nat → Option Nat
  | [], _ => none
  | (k, v) :: rest, k' => if k = k' then some v else mapGet rest k'

/-- Association-list model of `HashMap::insert`: prepending a binding
overwrites any older binding for the same key under `mapGet`. -/
def mapInsert (m : List (Nat × Nat)) (k v : Nat) : List (Nat × Nat) :=
  (k, v) :: m

/-- Mirrors `btf_types::BrainFuckProgram`. -/
structure BrainFuckProgram where
  filename : String
  instructions : List IntructionPosition
  brackets_map : List (Nat × Nat)
deriving DecidableEq, Repr

/-- The character scan of `BrainFuckProgram::new`: track `line` (from 1) and
`position`; on a newline the line advances and the position resets to 0
before the character is examined; every character advances the position. -/
def parseChars : List Char → Nat → Nat → List IntructionPosition
  | [], _, _ => []
  | c :: rest, line, position =>
    let lp := if c = '\n' then (line + 1, 0) else (line, position)
    match RawInstructions.tryFrom c with
    | some instr =>
        { instruction := instr, line := lp.1, position := lp.2 } ::
          parseChars rest lp.1 (lp.2 + 1)
    | none => parseChars rest lp.1 (lp.2 + 1)

/-- Mirrors `BrainFuckProgram::new`: parse the content, empty bracket map. -/
def BrainFuckProgram.new (filename : String) (content : String) : BrainFuckProgram :=
  { filename := filename
    instructions := parseChars content.data 1 1
    brackets_map := [] }

/-- Mirrors `BrainFuckProgram::set_brackets_map`. -/
def BrainFuckProgram.set_brackets_map (p : BrainFuckProgram)
    (m : List (Nat × Nat)) : BrainFuckProgram :=
  { p with brackets_map := m }

/-- The scan loop of `BrainFuckProgram::validate_brackets`.  The stack of
open brackets is a cons-stack: push = cons, pop = head, so the most
recently pushed element (`Vec::last` in Rust) is the list head.  On an
unmatched close bracket the scan stops with that instruction's location. -/
def scanBrackets : List IntructionPosition → Nat → List (Nat × Nat) →
    List (Nat × IntructionPosition) →
    Except (Nat × Nat) (List (Nat × Nat) × List (Nat × IntructionPosition))
  | [], _, m, st => .ok (m, st)
  | instr :: rest, pos, m, st =>
    match instr.instruction with
    | .zeroJump => scanBrackets rest (pos + 1) m ((pos, instr) :: st)
    | .nonZeroJump =>
      match st with
      | (opened, _) :: st' =>
          scanBrackets rest (pos + 1)
            (mapInsert (mapInsert m opened pos) pos opened) st'
      | [] => .error (instr.line, instr.position)
    | _ => scanBrackets rest (pos + 1) m st

/-- The unmatched-open-bracket error message of `validate_brackets`. -/
def openBracketMsg (line column : Nat) : String :=
  "Error in input file, no close bracket found matching bracket at line " ++
    toString line ++ " column " ++ toString column ++ "."

/-- The unmatched-close-bracket error message of `validate_brackets`. -/
def closeBracketMsg (line column : Nat) : String :=
  "Error in input file, no open bracket found matching bracket at line " ++
    toString line ++ " column " ++ toString column ++ "."

/-- Mirrors `BrainFuckProgram::validate_brackets`: run the scan; an
unmatched close bracket fails during the scan; a non-empty stack at the end
fails reporting the location of the stack's last-pushed element. -/
def BrainFuckProgram.validate_brackets (p : BrainFuckProgram) :
    Except String (List (Nat × Nat)) :=
  match scanBrackets p.instructions 0 [] [] with
  | .error (l, c) => .error (closeBracketMsg l c)
  | .ok (m, st) =>
    match st with
    | (_, instr) :: _ => .error (openBracketMsg instr.line instr.position)
    | [] => .ok m

/-- `new` followed by a successful `validate_brackets` and
`set_brackets_map`, as the interpreter's tests and driver do. -/
def BrainFuckProgram.validated (p : BrainFuckProgram) : BrainFuckProgram :=
  match p.validate_brackets with
  | .ok m => p.set_brackets_map m
  | .error _ => p

/-- Mirrors `u8::wrapping_add(self, 1)` on a cell value. -/
def wrapping_increment (v : Nat) : Nat := (v + 1) % 256

/-- Mirrors `u8::wrapping_sub(self, 1)` on a cell value. -/
def wrapping_decrement (v : Nat) : Nat := (v + 255) % 256

/-- Mirrors `btf_interp::VMError`. -/
inductive VMError where
  | nextElementNotReachable (line position : Nat)
  | previousElementNotReachanble (line position : Nat)
  | ioError (line position : Nat)
deriving DecidableEq, Repr

/-- Mirrors `btf_interp::VirtualMachine`; the program reference is carried
in the state, as in the Rust struct. -/
structure VirtualMachine where
  tape : List Nat
  adjust_tape : Bool
  head : Nat
  instruction_pointer : Nat
  program : BrainFuckProgram
deriving DecidableEq, Repr

/-- Mirrors `VirtualMachine::new`: `size` models `Option<NonZeroUsize>`
(default 3000), `adjust` models `Option<bool>` (default `false`); the tape
is zero-filled, head and instruction pointer start at 0. -/
def VirtualMachine.new (program : BrainFuckProgram) (size : Option Nat)
    (adjust : Option Bool) : VirtualMachine :=
  { tape := List.replicate (size.getD 3000) 0
    adjust_tape := adjust.getD false
    head := 0
    instruction_pointer := 0
    program := program }

/-- The instruction currently pointed at (Rust indexes and would panic out
of bounds; the interpreter only fetches while in bounds). -/
def VirtualMachine.currentInstr (s : VirtualMachine) : IntructionPosition :=
  s.program.instructions.getD s.instruction_pointer default

/-- Mirrors `VirtualMachine::next_element` (`>`): fails when the head is on
the last cell, leaving the state untouched; otherwise advances head and
instruction pointer.  Note the `adjust_tape` flag is never consulted. -/
def VirtualMachine.next_element (s : VirtualMachine) :
    VirtualMachine × Except VMError Nat :=
  if s.head + 1 = s.tape.length then
    (s, .error (.nextElementNotReachable s.currentInstr.line s.currentInstr.position))
  else
    ({ s with head := s.head + 1, instruction_pointer := s.instruction_pointer + 1 },
      .ok (s.instruction_pointer + 1))

/-- Mirrors `VirtualMachine::previous_element` (`<`). -/
def VirtualMachine.previous_element (s : VirtualMachine) :
    VirtualMachine × Except VMError Nat :=
  if s.head = 0 then
    (s, .error (.previousElementNotReachanble s.currentInstr.line s.currentInstr.position))
  else
    ({ s with head := s.head - 1, instruction_pointer := s.instruction_pointer + 1 },
      .ok (s.instruction_pointer + 1))

/-- Mirrors `VirtualMachine::wrapped_add` (`+`). -/
def VirtualMachine.wrapped_add (s : VirtualMachine) :
    VirtualMachine × Except VMError Nat :=
  ({ s with
      tape := s.tape.set s.head (wrapping_increment (s.tape.getD s.head 0))
      instruction_pointer := s.instruction_pointer + 1 },
    .ok (s.instruction_pointer + 1))

/-- Mirrors `VirtualMachine::wrapped_sub` (`-`). -/
def VirtualMachine.wrapped_sub (s : VirtualMachine) :
    VirtualMachine × Except VMError Nat :=
  ({ s with
      tape := s.tape.set s.head (wrapping_decrement (s.tape.getD s.head 0))
      instruction_pointer := s.instruction_pointer + 1 },
    .ok (s.instruction_pointer + 1))

/-- Mirrors `VirtualMachine::read` (`,`): take one byte from the input
stream; an exhausted stream is the read failure, reported as `IOError`. -/
def VirtualMachine.read (s : VirtualMachine) (inp : List Nat) :
    VirtualMachine × List Nat × Except VMError Nat :=
  match inp with
  | [] => (s, [], .error (.ioError s.currentInstr.line s.currentInstr.position))
  | b :: rest =>
    ({ s with
        tape := s.tape.set s.head (b % 256)
        instruction_pointer := s.instruction_pointer + 1 },
      rest, .ok (s.instruction_pointer + 1))

/-- Mirrors `VirtualMachine::output` (`.`): append the current cell's byte
to the output stream (list writes always succeed). -/
def VirtualMachine.output (s : VirtualMachine) (out : List Nat) :
    VirtualMachine × List Nat × Except VMError Nat :=
  ({ s with instruction_pointer := s.instruction_pointer + 1 },
    out ++ [s.tape.getD s.head 0], .ok (s.instruction_pointer + 1))

/-- Mirrors `VirtualMachine::loop_zero_jump` (`[`): look the current
instruction pointer up in the bracket map and return the partner index
unconditionally; a missing entry is `NextElementNotReachable`.  The cell
value is not examined and no 1 is added. -/
def VirtualMachine.loop_zero_jump (s : VirtualMachine) : Except VMError Nat :=
  match mapGet s.program.brackets_map s.instruction_pointer with
  | none => .error (.nextElementNotReachable s.currentInstr.line s.currentInstr.position)
  | some t => .ok t

/-- Mirrors `VirtualMachine::loop_non_zero_jump` (`]`): when the cell is
nonzero, jump to the bracket partner plus one (missing entry fails); when
the cell is zero, step to the next instruction without consulting the map. -/
def VirtualMachine.loop_non_zero_jump (s : VirtualMachine) :
    VirtualMachine × Except VMError Nat :=
  if s.tape.getD s.head 0 ≠ 0 then
    match mapGet s.program.brackets_map s.instruction_pointer with
    | none =>
        (s, .error (.nextElementNotReachable s.currentInstr.line s.currentInstr.position))
    | some t => (s, .ok (t + 1))
  else
    ({ s with instruction_pointer := s.instruction_pointer + 1 },
      .ok (s.instruction_pointer + 1))

/-- Commit the returned instruction pointer into the machine, as the
assignment in `interpret`'s loop body does, or surface the error. -/
def applyIp (r : VirtualMachine × Except VMError Nat) (inp out : List Nat) :
    (VirtualMachine × List Nat × List Nat) × Except VMError Unit :=
  match r with
  | (s, .ok n) => (({ s with instruction_pointer := n }, inp, out), .ok ())
  | (s, .error e) => ((s, inp, out), .error e)

/-- One iteration of `VirtualMachine::interpret`'s while-loop body:
dispatch on the current instruction. -/
def VirtualMachine.step (s : VirtualMachine) (inp out : List Nat) :
    (VirtualMachine × List Nat × List Nat) × Except VMError Unit :=
  match s.currentInstr.instruction with
  | .incrementDataPointer => applyIp s.next_element inp out
  | .decrementDataPointer => applyIp s.previous_element inp out
  | .incrementByte => applyIp s.wrapped_add inp out
  | .decrementByte => applyIp s.wrapped_sub inp out
  | .outputByte =>
      match s.output out with
      | (s', out', r) => applyIp (s', r) inp out'
  | .acceptByte =>
      match s.read inp with
      | (s', inp', r) => applyIp (s', r) inp' out
  | .zeroJump => applyIp (s, s.loop_zero_jump) inp out
  | .nonZeroJump => applyIp s.loop_non_zero_jump inp out

/-- Outcome of a fuelled run of `VirtualMachine::interpret`. -/
inductive RunResult where
  | ok (s : VirtualMachine) (inp out : List Nat)
  | err (e : VMError) (s : VirtualMachine) (inp out : List Nat)
  | outOfFuel (s : VirtualMachine) (inp out : List Nat)
deriving DecidableEq, Repr

/-- The machine state carried by a run outcome. -/
def RunResult.vm : RunResult → VirtualMachine
  | .ok s _ _ => s
  | .err _ s _ _ => s
  | .outOfFuel s _ _ => s

/-- The output stream carried by a run outcome. -/
def RunResult.outStream : RunResult → List Nat
  | .ok _ _ out => out
  | .err _ _ _ out => out
  | .outOfFuel _ _ out => out

/-- Fuelled version of `VirtualMachine::interpret`: repeat `step` while the
instruction pointer is inside the instruction list; stop with `ok` when it
reaches the end, with `err` when a step fails. -/
def VirtualMachine.interpretFuel : Nat → VirtualMachine → List Nat → List Nat → RunResult
  | 0, s, inp, out =>
    if s.instruction_pointer < s.program.instructions.length then
      .outOfFuel s inp out
    else .ok s inp out
  | fuel + 1, s, inp, out =>
    if s.instruction_pointer < s.program.instructions.length then
      match s.step inp out with
      | ((s', inp', out'), .ok ()) => interpretFuel fuel s' inp' out'
      | ((s', inp', out'), .error e) => .err e s' inp' out'
    else .ok s inp out

/-- The validated program parsed from the source text of three characters
open bracket, minus, close bracket. -/
def progLoopMinus : BrainFuckProgram :=
  (BrainFuckProgram.new "loopminus.bf" "[-]").validated

/-- The (trivially validated) program parsed from the single character
greater-than. -/
def progRight : BrainFuckProgram :=
  (BrainFuckProgram.new "right.bf" ">").validated

/-- The unvalidated program parsed from the single character close
bracket: its bracket map is empty. -/
def progClose : BrainFuckProgram :=
  BrainFuckProgram.new "close.bf" "]"

/-- The program parsed from two consecutive open brackets (both dangling). -/
def progOpenOpen : BrainFuckProgram :=
  BrainFuckProgram.new "openopen.bf" "[["

/-- The instruction indices stored on the open-bracket stack. -/
def stKeys (st : List (Nat × IntructionPosition)) : List Nat :=
  st.map Prod.fst

/-- Invariant of the bracket scan after processing all instructions below
`pos`: stack entries are earlier positions in innermost-first (strictly
decreasing) order, the map binds only earlier positions, is an involution,
and its domain is disjoint from the stack. -/
structure ScanInv (m : List (Nat × Nat)) (st : List (Nat × IntructionPosition))
    (pos : Nat) : Prop where
  stack_lt : ∀ e ∈ st, e.1 < pos
  stack_sorted : st.Pairwise (fun a b => b.1 < a.1)
  dom_lt : ∀ i j, mapGet m i = some j → i < pos
  invol : ∀ i j, mapGet m i = some j → mapGet m j = some i
  disj : ∀ i j, mapGet m i = some j → ∀ e ∈ st, e.1 ≠ i

/- ------------------------------------------------------------------ -/
/- Helper lemmas -/

/-- Lookup after one insertion. -/
theorem mapGet_insert (m : List (Nat × Nat)) (k v k' : Nat) :
    mapGet (mapInsert m k v) k' = if k = k' then some v else mapGet m k' := rfl

/-- Lookup after the paired insertion performed for a matched bracket. -/
theorem mapGet_insert2 (m : List (Nat × Nat)) (a b x : Nat) :
    mapGet (mapInsert (mapInsert m a b) b a) x =
      if b = x then some a else if a = x then some b else mapGet m x := rfl

/-- A wrapped cell value stays below 256. -/
theorem wrapping_increment_lt (v : Nat) : wrapping_increment v < 256 :=
  Nat.mod_lt _ (by omega)

/-- Iterating the wrapping increment adds modulo 256. -/
theorem iterate_wrapping_increment (n : Nat) :
    ∀ v : Nat, v < 256 → wrapping_increment^[n] v = (v + n) % 256 := by
  induction n with
  | zero =>
    intro v hv
    simp [Nat.mod_eq_of_lt hv]
  | succ k ih =>
    intro v hv
    rw [Function.iterate_succ_apply]
    rw [ih (wrapping_increment v) (wrapping_increment_lt v)]
    unfold wrapping_increment
    omega

/- ------------------------------------------------------------------ -/
/- C9: cell arithmetic is modulo 256 -/

/-- C9: cell arithmetic is modulo-256 on byte cells: incrementing 255
yields 0, decrementing 0 yields 255, and applying the increment 256 times
returns any cell value below 256 to itself. -/
theorem C9_theorem :
    wrapping_increment 255 = 0 ∧ wrapping_decrement 0 = 255 ∧
    ∀ v : Nat, v < 256 → wrapping_increment^[256] v = v := by
  refine ⟨by decide, by decide, ?_⟩
  intro v hv
  rw [iterate_wrapping_increment 256 v hv]
  omega

/-- Witness for C9 at the cell value 200. -/
theorem C9_witness : 200 < 256 ∧ wrapping_increment^[256] 200 = 200 :=
  ⟨by decide, C9_theorem.2.2 200 (by decide)⟩

/- ------------------------------------------------------------------ -/
/- C7: fixed tape of size 1 overflows on the move-right program -/

/-- C7: on a fixed tape of size 1 the single move-right program fails with
the tape-overflow error (`NextElementNotReachable`) carrying line 1 and
column 1 of the move-right instruction, the failed step leaves the machine
unchanged, and the post-error head is still 0. -/
theorem C7_theorem :
    VirtualMachine.interpretFuel 5 (VirtualMachine.new progRight (some 1) none) [] [] =
      RunResult.err (.nextElementNotReachable 1 1)
        (VirtualMachine.new progRight (some 1) none) [] [] ∧
    ((VirtualMachine.interpretFuel 5
        (VirtualMachine.new progRight (some 1) none) [] []).vm).head = 0 :=
  ⟨rfl, rfl⟩

/- ------------------------------------------------------------------ -/
/- C2: the growable-tape policy is never applied -/

/-- C2: a machine constructed with `adjust_tape = true` and tape size 1
still fails with the tape-overflow error on a move-right at the end of the
tape: the `adjust_tape` flag is stored but never consulted, so no cell is
ever appended. -/
theorem C2_theorem :
    (VirtualMachine.new progRight (some 1) (some true)).adjust_tape = true ∧
    VirtualMachine.interpretFuel 5
        (VirtualMachine.new progRight (some 1) (some true)) [] [] =
      RunResult.err (.nextElementNotReachable 1 1)
        (VirtualMachine.new progRight (some 1) (some true)) [] [] :=
  ⟨rfl, rfl⟩

/- ------------------------------------------------------------------ -/
/- C1: the open-bracket step -/

/-- C1 counterexample: in the validated loop program, with the current cell
equal to 0 and the bracket partner of instruction 0 equal to 2, executing
the open bracket sets the instruction pointer to 2 (the partner itself),
not to partner + 1 = 3 as the claim states. -/
theorem C1_counterexample :
    mapGet progLoopMinus.brackets_map 0 = some 2 ∧
    VirtualMachine.step
        { tape := [0], adjust_tape := false, head := 0,
          instruction_pointer := 0, program := progLoopMinus } [] [] =
      (({ tape := [0], adjust_tape := false, head := 0,
          instruction_pointer := 2, program := progLoopMinus }, [], []), .ok ()) ∧
    (2 : Nat) ≠ 2 + 1 :=
  ⟨rfl, rfl, by decide⟩

/-- C1 (amended): whenever the current instruction is an open bracket and
the bracket map binds the current instruction pointer to `t`, the step sets
the instruction pointer to `t` itself, regardless of the current cell
value; the matching close bracket then performs the zero test. -/
theorem C1_theorem (s : VirtualMachine) (inp out : List Nat) (t : Nat)
    (hinstr : s.currentInstr.instruction = RawInstructions.zeroJump)
    (hmap : mapGet s.program.brackets_map s.instruction_pointer = some t) :
    s.step inp out = (({ s with instruction_pointer := t }, inp, out), .ok ()) := by
  unfold VirtualMachine.step
  rw [hinstr]
  unfold VirtualMachine.loop_zero_jump
  rw [hmap]
  rfl

/-- Witness for C1 (amended) at a machine with a nonzero cell. -/
theorem C1_witness :
    ({ tape := [9], adjust_tape := false, head := 0, instruction_pointer := 0,
        program := progLoopMinus } : VirtualMachine).currentInstr.instruction =
      RawInstructions.zeroJump ∧
    mapGet progLoopMinus.brackets_map 0 = some 2 ∧
    VirtualMachine.step
        { tape := [9], adjust_tape := false, head := 0,
          instruction_pointer := 0, program := progLoopMinus } [] [] =
      (({ tape := [9], adjust_tape := false, head := 0,
          instruction_pointer := 2, program := progLoopMinus }, [], []), .ok ()) :=
  ⟨rfl, rfl, C1_theorem _ [] [] 2 rfl rfl⟩

/- ------------------------------------------------------------------ -/
/- C3: behaviour on an absent bracket map -/

/-- C3 counterexample: the unvalidated close-bracket program (empty bracket
map) runs to successful completion over a zero tape: the close bracket with
a zero cell never consults the bracket map, so the run does not fail at the
first loop instruction. -/
theorem C3_counterexample :
    progClose.brackets_map = [] ∧
    (progClose.instructions.getD 0 default).instruction =
      RawInstructions.nonZeroJump ∧
    VirtualMachine.interpretFuel 2 (VirtualMachine.new progClose (some 1) none) [] [] =
      RunResult.ok
        { tape := [0], adjust_tape := false, head := 0,
          instruction_pointer := 1, program := progClose } [] [] :=
  ⟨rfl, rfl, rfl⟩

/-- C3 (amended): with the current instruction pointer absent from the
bracket map, an open bracket always fails, a close bracket fails exactly
when the current cell is nonzero, and a close bracket with a zero cell
steps past silently without consulting the map. -/
theorem C3_theorem :
    (∀ (s : VirtualMachine) (inp out : List Nat),
        s.currentInstr.instruction = RawInstructions.zeroJump →
        mapGet s.program.brackets_map s.instruction_pointer = none →
        s.step inp out = ((s, inp, out),
          .error (.nextElementNotReachable s.currentInstr.line s.currentInstr.position))) ∧
    (∀ (s : VirtualMachine) (inp out : List Nat),
        s.currentInstr.instruction = RawInstructions.nonZeroJump →
        s.tape.getD s.head 0 ≠ 0 →
        mapGet s.program.brackets_map s.instruction_pointer = none →
        s.step inp out = ((s, inp, out),
          .error (.nextElementNotReachable s.currentInstr.line s.currentInstr.position))) ∧
    (∀ (s : VirtualMachine) (inp out : List Nat),
        s.currentInstr.instruction = RawInstructions.nonZeroJump →
        s.tape.getD s.head 0 = 0 →
        s.step inp out =
          (({ s with instruction_pointer := s.instruction_pointer + 1 }, inp, out),
            .ok ())) := by
  refine ⟨?_, ?_, ?_⟩
  · intro s inp out hinstr hmap
    unfold VirtualMachine.step
    rw [hinstr]
    unfold VirtualMachine.loop_zero_jump
    rw [hmap]
    rfl
  · intro s inp out hinstr hcell hmap
    unfold VirtualMachine.step
    rw [hinstr]
    unfold VirtualMachine.loop_non_zero_jump
    rw [if_pos hcell, hmap]
    rfl
  · intro s inp out hinstr hcell
    unfold VirtualMachine.step
    rw [hinstr]
    unfold VirtualMachine.loop_non_zero_jump
    rw [if_neg (not_not_intro hcell)]
    rfl

/-- Witness for C3 (amended): the three cases at concrete machines built on
the unvalidated programs. -/
theorem C3_witness :
    VirtualMachine.step
        { tape := [0], adjust_tape := false, head := 0,
          instruction_pointer := 0, program := progOpenOpen } [] [] =
      (({ tape := [0], adjust_tape := false, head := 0,
          instruction_pointer := 0, program := progOpenOpen }, [], []),
        .error (.nextElementNotReachable 1 1)) ∧
    VirtualMachine.step
        { tape := [4], adjust_tape := false, head := 0,
          instruction_pointer := 0, program := progClose } [] [] =
      (({ tape := [4], adjust_tape := false, head := 0,
          instruction_pointer := 0, program := progClose }, [], []),
        .error (.nextElementNotReachable 1 1)) ∧
    VirtualMachine.step
        { tape := [0], adjust_tape := false, head := 0,
          instruction_pointer := 0, program := progClose } [] [] =
      (({ tape := [0], adjust_tape := false, head := 0,
          instruction_pointer := 1, program := progClose }, [], []), .ok ()) :=
  ⟨C3_theorem.1 _ [] [] rfl rfl,
   C3_theorem.2.1 _ [] [] rfl (by decide) rfl,
   C3_theorem.2.2 _ [] [] rfl rfl⟩

/- ------------------------------------------------------------------ -/
/- C4: the clear-loop program zeroes the cell with no I/O -/

/-- C4: on the validated clear-loop program, starting from any fresh state
whose cell 0 holds 5, the run terminates successfully with cell 0 equal
to 0, the rest of the tape untouched, nothing read from the input stream
and nothing written to the output stream. -/
theorem C4_theorem (rest : List Nat) (adj : Bool) (inp : List Nat) :
    VirtualMachine.interpretFuel 20
        { tape := 5 :: rest, adjust_tape := adj, head := 0,
          instruction_pointer := 0, program := progLoopMinus } inp [] =
      RunResult.ok
        { tape := 0 :: rest, adjust_tape := adj, head := 0,
          instruction_pointer := 3, program := progLoopMinus } inp [] := by
  simp [VirtualMachine.interpretFuel, VirtualMachine.step, VirtualMachine.currentInstr,
    VirtualMachine.loop_zero_jump, VirtualMachine.loop_non_zero_jump,
    VirtualMachine.wrapped_sub, wrapping_decrement, applyIp, progLoopMinus,
    BrainFuckProgram.validated, BrainFuckProgram.new, BrainFuckProgram.validate_brackets,
    BrainFuckProgram.set_brackets_map, parseChars, scanBrackets, mapInsert, mapGet,
    RawInstructions.tryFrom]

/- ------------------------------------------------------------------ -/
/- Step lemmas shared by C8 and C10 -/

/-- A single interpreter step never changes the program component. -/
theorem step_program (s : VirtualMachine) (inp out : List Nat) :
    ((s.step inp out).1.1).program = s.program := by
  unfold VirtualMachine.step VirtualMachine.next_element VirtualMachine.previous_element
    VirtualMachine.wrapped_add VirtualMachine.wrapped_sub VirtualMachine.read
    VirtualMachine.output VirtualMachine.loop_zero_jump VirtualMachine.loop_non_zero_jump
  cases h : s.currentInstr.instruction <;> dsimp only <;> repeat' split
  all_goals simp [applyIp]

/-- A single interpreter step preserves the head-in-bounds invariant. -/
theorem step_head_lt (s : VirtualMachine) (inp out : List Nat)
    (h : s.head < s.tape.length) :
    ((s.step inp out).1.1).head < ((s.step inp out).1.1).tape.length := by
  unfold VirtualMachine.step VirtualMachine.next_element VirtualMachine.previous_element
    VirtualMachine.wrapped_add VirtualMachine.wrapped_sub VirtualMachine.read
    VirtualMachine.output VirtualMachine.loop_zero_jump VirtualMachine.loop_non_zero_jump
  cases hi : s.currentInstr.instruction <;> dsimp only <;> repeat' split
  all_goals simp [applyIp, List.length_set]
  all_goals omega

/-- A whole fuelled run never changes the program component. -/
theorem interpretFuel_program (fuel : Nat) :
    ∀ (s : VirtualMachine) (inp out : List Nat),
      ((VirtualMachine.interpretFuel fuel s inp out).vm).program = s.program := by
  induction fuel with
  | zero =>
    intro s inp out
    unfold VirtualMachine.interpretFuel
    split <;> rfl
  | succ n ih =>
    intro s inp out
    unfold VirtualMachine.interpretFuel
    split
    · rcases hstep : s.step inp out with ⟨⟨s', inp', out'⟩, r⟩
      have hp : s'.program = s.program := by
        have hq := step_program s inp out
        rw [hstep] at hq
        exact hq
      cases r with
      | ok u =>
        cases u
        dsimp only
        rw [ih s' inp' out', hp]
      | error e =>
        dsimp only [RunResult.vm]
        exact hp
    · rfl

/- ------------------------------------------------------------------ -/
/- C8: determinism and program immutability -/

/-- C8: two fresh machines built from the same validated program with the
same configuration, run on identical input streams, produce the same run
outcome, the same output byte sequence and the same final tape; and the
run leaves the shared program (instructions and bracket map) unchanged. -/
theorem C8_theorem (p : BrainFuckProgram) (size : Option Nat)
    (adjust : Option Bool) (fuel : Nat) (inp1 inp2 : List Nat)
    (h : inp1 = inp2) :
    VirtualMachine.interpretFuel fuel (VirtualMachine.new p size adjust) inp1 [] =
      VirtualMachine.interpretFuel fuel (VirtualMachine.new p size adjust) inp2 [] ∧
    (VirtualMachine.interpretFuel fuel (VirtualMachine.new p size adjust) inp1 []).outStream =
      (VirtualMachine.interpretFuel fuel (VirtualMachine.new p size adjust) inp2 []).outStream ∧
    ((VirtualMachine.interpretFuel fuel (VirtualMachine.new p size adjust) inp1 []).vm).tape =
      ((VirtualMachine.interpretFuel fuel (VirtualMachine.new p size adjust) inp2 []).vm).tape ∧
    ((VirtualMachine.interpretFuel fuel (VirtualMachine.new p size adjust) inp1 []).vm).program = p := by
  subst h
  refine ⟨rfl, rfl, rfl, ?_⟩
  rw [interpretFuel_program]
  rfl

/-- Witness for C8: the validated loop program on a two-cell machine with
a one-byte input stream. -/
theorem C8_witness :
    VirtualMachine.interpretFuel 20 (VirtualMachine.new progLoopMinus (some 2) none) [3] [] =
      VirtualMachine.interpretFuel 20 (VirtualMachine.new progLoopMinus (some 2) none) [3] [] ∧
    (VirtualMachine.interpretFuel 20 (VirtualMachine.new progLoopMinus (some 2) none) [3] []).outStream =
      (VirtualMachine.interpretFuel 20 (VirtualMachine.new progLoopMinus (some 2) none) [3] []).outStream ∧
    ((VirtualMachine.interpretFuel 20 (VirtualMachine.new progLoopMinus (some 2) none) [3] []).vm).tape =
      ((VirtualMachine.interpretFuel 20 (VirtualMachine.new progLoopMinus (some 2) none) [3] []).vm).tape ∧
    ((VirtualMachine.interpretFuel 20 (VirtualMachine.new progLoopMinus (some 2) none) [3] []).vm).program =
      progLoopMinus :=
  C8_theorem progLoopMinus (some 2) none 20 [3] [3] rfl

/- ------------------------------------------------------------------ -/
/- C10: the head stays inside the tape -/

/-- C10: a freshly constructed machine (positive configured size, or the
default 3000) starts with its head inside the tape, and every interpreter
step preserves `head < tape.length`, so each step's `tape[head]` access is
in bounds. -/
theorem C10_theorem :
    (∀ (p : BrainFuckProgram) (size : Option Nat) (adjust : Option Bool),
        (∀ n ∈ size, 0 < n) →
        (VirtualMachine.new p size adjust).head <
          (VirtualMachine.new p size adjust).tape.length) ∧
    (∀ (s : VirtualMachine) (inp out : List Nat),
        s.head < s.tape.length →
        ((s.step inp out).1.1).head < ((s.step inp out).1.1).tape.length) := by
  constructor
  · intro p size adjust hsz
    show (0 : Nat) < (List.replicate (size.getD 3000) 0).length
    rw [List.length_replicate]
    cases size with
    | none => rw [Option.getD_none]; omega
    | some n => rw [Option.getD_some]; exact hsz n rfl
  · intro s inp out h
    exact step_head_lt s inp out h

/-- Witness for C10: construction with size 1, and one step on a two-cell
machine about to move right. -/
theorem C10_witness :
    ((VirtualMachine.new progRight (some 1) none).head <
      (VirtualMachine.new progRight (some 1) none).tape.length) ∧
    (((VirtualMachine.step
        { tape := [0, 0], adjust_tape := false, head := 0,
          instruction_pointer := 0, program := progRight } [] []).1.1).head <
      ((VirtualMachine.step
        { tape := [0, 0], adjust_tape := false, head := 0,
          instruction_pointer := 0, program := progRight } [] []).1.1).tape.length) :=
  ⟨C10_theorem.1 progRight (some 1) none
      (by intro n hn; rw [Option.mem_def] at hn; injection hn with h; omega),
    C10_theorem.2
      { tape := [0, 0], adjust_tape := false, head := 0,
        instruction_pointer := 0, program := progRight } [] [] (by decide)⟩

/- ------------------------------------------------------------------ -/
/- The bracket-scan invariant, shared by C5 and C6 -/

/-- The empty scan state satisfies the invariant. -/
theorem scanInv_nil : ScanInv [] [] 0 := by
  constructor
  · intro e he
    exact absurd he (List.not_mem_nil e)
  · exact List.Pairwise.nil
  · intro i j hj
    simp [mapGet] at hj
  · intro i j hj
    simp [mapGet] at hj
  · intro i j hj
    simp [mapGet] at hj

/-- Main induction for the bracket scan: a successful scan preserves the
invariant, extends the map monotonically, sends every stacked bracket to
the final stack or the final map, and covers every bracket instruction of
the processed segment by the final map or the final stack. -/
theorem scanBrackets_inv :
    ∀ (instrs : List IntructionPosition) (pos : Nat) (m : List (Nat × Nat))
      (st : List (Nat × IntructionPosition)) (m' : List (Nat × Nat))
      (st' : List (Nat × IntructionPosition)),
      scanBrackets instrs pos m st = .ok (m', st') →
      ScanInv m st pos →
      ScanInv m' st' (pos + instrs.length) ∧
      (∀ i j, mapGet m i = some j → mapGet m' i = some j) ∧
      (∀ e ∈ st, e ∈ st' ∨ ∃ j, mapGet m' e.1 = some j) ∧
      (∀ k, k < instrs.length →
        ((instrs.getD k default).instruction = RawInstructions.zeroJump ∨
         (instrs.getD k default).instruction = RawInstructions.nonZeroJump) →
        (∃ j, mapGet m' (pos + k) = some j) ∨ (pos + k) ∈ stKeys st') := by
  intro instrs
  induction instrs with
  | nil =>
    intro pos m st m' st' h hinv
    simp only [scanBrackets, Except.ok.injEq, Prod.mk.injEq] at h
    obtain ⟨rfl, rfl⟩ := h
    refine ⟨?_, fun i j hj => hj, fun e he => .inl he, ?_⟩
    · simp only [List.length_nil, Nat.add_zero]
      exact hinv
    · intro k hk
      rw [List.length_nil] at hk
      exact absurd hk (Nat.not_lt_zero k)
  | cons instr rest ih =>
    intro pos m st m' st' h hinv
    cases hi : instr.instruction
    case zeroJump =>
      simp only [scanBrackets, hi] at h
      have hinv1 : ScanInv m ((pos, instr) :: st) (pos + 1) := by
        constructor
        · intro e he
          rcases List.mem_cons.mp he with rfl | he2
          · exact Nat.lt_succ_self pos
          · exact Nat.lt_succ_of_lt (hinv.stack_lt e he2)
        · refine List.Pairwise.cons ?_ hinv.stack_sorted
          intro b hb
          exact hinv.stack_lt b hb
        · intro i j hj
          exact Nat.lt_succ_of_lt (hinv.dom_lt i j hj)
        · exact hinv.invol
        · intro i j hj e he
          rcases List.mem_cons.mp he with rfl | he2
          · show pos ≠ i
            have := hinv.dom_lt i j hj
            omega
          · exact hinv.disj i j hj e he2
      obtain ⟨hI, hpres, hfate, hcov⟩ := ih (pos + 1) m ((pos, instr) :: st) m' st' h hinv1
      have hlen : pos + (instr :: rest).length = (pos + 1) + rest.length := by
        rw [List.length_cons]
        omega
      refine ⟨by rw [hlen]; exact hI, hpres, ?_, ?_⟩
      · intro e he
        exact hfate e (List.mem_cons_of_mem _ he)
      · intro k hk hbr
        cases k with
        | zero =>
          rcases hfate (pos, instr) (List.mem_cons_self _ _) with hin | ⟨j, hj⟩
          · right
            rw [Nat.add_zero]
            exact List.mem_map_of_mem Prod.fst hin
          · left
            refine ⟨j, ?_⟩
            rw [Nat.add_zero]
            exact hj
        | succ k2 =>
          have hk2 : k2 < rest.length := by
            rw [List.length_cons] at hk
            omega
          rw [List.getD_cons_succ] at hbr
          have hc := hcov k2 hk2 hbr
          have he2 : pos + (k2 + 1) = (pos + 1) + k2 := by omega
          rw [he2]
          exact hc
    case nonZeroJump =>
      simp only [scanBrackets, hi] at h
      cases st with
      | nil => exact absurd h (by simp)
      | cons top st2 =>
        obtain ⟨opened, oi⟩ := top
        have hop_lt : opened < pos := hinv.stack_lt (opened, oi) (List.mem_cons_self _ _)
        have hop_not_dom : ∀ j, mapGet m opened = some j → False := by
          intro j hj
          exact hinv.disj opened j hj (opened, oi) (List.mem_cons_self _ _) rfl
        have hst2_lt_opened : ∀ e ∈ st2, e.1 < opened := by
          have hp := hinv.stack_sorted
          rw [List.pairwise_cons] at hp
          intro e he
          exact hp.1 e he
        have hm2get : ∀ x, mapGet (mapInsert (mapInsert m opened pos) pos opened) x =
            if pos = x then some opened
            else if opened = x then some pos
            else mapGet m x := fun _ => rfl
        have hinv1 : ScanInv (mapInsert (mapInsert m opened pos) pos opened) st2 (pos + 1) := by
          constructor
          · intro e he
            exact Nat.lt_succ_of_lt (hinv.stack_lt e (List.mem_cons_of_mem _ he))
          · exact hinv.stack_sorted.of_cons
          · intro i j hj
            rw [hm2get] at hj
            by_cases h1 : pos = i
            · omega
            · rw [if_neg h1] at hj
              by_cases h2 : opened = i
              · omega
              · rw [if_neg h2] at hj
                exact Nat.lt_succ_of_lt (hinv.dom_lt i j hj)
          · intro i j hj
            rw [hm2get] at hj
            rw [hm2get]
            by_cases h1 : pos = i
            · rw [if_pos h1] at hj
              have hj' : opened = j := by injection hj
              subst hj'
              subst h1
              rw [if_neg (by omega), if_pos rfl]
            · rw [if_neg h1] at hj
              by_cases h2 : opened = i
              · rw [if_pos h2] at hj
                have hj' : pos = j := by injection hj
                subst hj'
                subst h2
                rw [if_pos rfl]
              · rw [if_neg h2] at hj
                have hji := hinv.invol i j hj
                have hj_lt : j < pos := hinv.dom_lt j i hji
                have hne2 : opened ≠ j := by
                  intro hq
                  rw [← hq] at hji
                  exact hop_not_dom i hji
                rw [if_neg (by omega : ¬ pos = j), if_neg hne2]
                exact hji
          · intro i j hj e he
            rw [hm2get] at hj
            by_cases h1 : pos = i
            · have := hinv.stack_lt e (List.mem_cons_of_mem _ he)
              omega
            · rw [if_neg h1] at hj
              by_cases h2 : opened = i
              · have := hst2_lt_opened e he
                omega
              · rw [if_neg h2] at hj
                exact hinv.disj i j hj e (List.mem_cons_of_mem _ he)
        obtain ⟨hI, hpres, hfate, hcov⟩ :=
          ih (pos + 1) (mapInsert (mapInsert m opened pos) pos opened) st2 m' st' h hinv1
        have hpres' : ∀ i j, mapGet m i = some j → mapGet m' i = some j := by
          intro i j hj
          apply hpres
          rw [hm2get]
          have hi_lt : i < pos := hinv.dom_lt i j hj
          have h2 : opened ≠ i :=
            hinv.disj i j hj (opened, oi) (List.mem_cons_self _ _)
          rw [if_neg (by omega : ¬ pos = i), if_neg h2]
          exact hj
        have hlen : pos + (instr :: rest).length = (pos + 1) + rest.length := by
          rw [List.length_cons]
          omega
        refine ⟨by rw [hlen]; exact hI, hpres', ?_, ?_⟩
        · intro e he
          rcases List.mem_cons.mp he with rfl | he2
          · right
            refine ⟨pos, hpres opened pos ?_⟩
            rw [hm2get]
            rw [if_neg (by omega : ¬ pos = opened), if_pos rfl]
          · exact hfate e he2
        · intro k hk hbr
          cases k with
          | zero =>
            left
            refine ⟨opened, ?_⟩
            rw [Nat.add_zero]
            apply hpres
            rw [hm2get]
            rw [if_pos rfl]
          | succ k2 =>
            have hk2 : k2 < rest.length := by
              rw [List.length_cons] at hk
              omega
            rw [List.getD_cons_succ] at hbr
            have hc := hcov k2 hk2 hbr
            have he2 : pos + (k2 + 1) = (pos + 1) + k2 := by omega
            rw [he2]
            exact hc
    all_goals (
      simp only [scanBrackets, hi] at h
      have hinv1 : ScanInv m st (pos + 1) := by
        constructor
        · intro e he
          exact Nat.lt_succ_of_lt (hinv.stack_lt e he)
        · exact hinv.stack_sorted
        · intro i j hj
          exact Nat.lt_succ_of_lt (hinv.dom_lt i j hj)
        · exact hinv.invol
        · exact hinv.disj
      obtain ⟨hI, hpres, hfate, hcov⟩ := ih (pos + 1) m st m' st' h hinv1
      have hlen : pos + (instr :: rest).length = (pos + 1) + rest.length := by
        rw [List.length_cons]
        omega
      refine ⟨by rw [hlen]; exact hI, hpres, hfate, ?_⟩
      intro k hk hbr
      cases k with
      | zero =>
        rw [List.getD_cons_zero, hi] at hbr
        simp at hbr
      | succ k2 =>
        have hk2 : k2 < rest.length := by
          rw [List.length_cons] at hk
          omega
        rw [List.getD_cons_succ] at hbr
        have hc := hcov k2 hk2 hbr
        have he2 : pos + (k2 + 1) = (pos + 1) + k2 := by omega
        rw [he2]
        exact hc)

/- ------------------------------------------------------------------ -/
/- C5: the unmatched-open error reports the innermost dangling bracket -/

/-- C5: when the scan consumes every close bracket (each one finds a
matching earlier open bracket) but ends with a non-empty stack of dangling
open brackets, `validate_brackets` fails with the unmatched-open message
built from the line and column of the stack's most recently pushed entry,
whose instruction index is the largest (innermost) among all dangling open
brackets. -/
theorem C5_theorem (p : BrainFuckProgram) (m : List (Nat × Nat))
    (top : Nat × IntructionPosition) (st : List (Nat × IntructionPosition))
    (h : scanBrackets p.instructions 0 [] [] = .ok (m, top :: st)) :
    p.validate_brackets = .error (openBracketMsg top.2.line top.2.position) ∧
    ∀ e ∈ top :: st, e.1 ≤ top.1 := by
  obtain ⟨hI, -, -, -⟩ := scanBrackets_inv p.instructions 0 [] [] m (top :: st) h scanInv_nil
  constructor
  · obtain ⟨ti, tinstr⟩ := top
    unfold BrainFuckProgram.validate_brackets
    rw [h]
  · intro e he
    have hp := hI.stack_sorted
    rw [List.pairwise_cons] at hp
    rcases List.mem_cons.mp he with rfl | he2
    · exact Nat.le_refl _
    · exact Nat.le_of_lt (hp.1 e he2)

/-- Witness for C5: the two-open-bracket program; the reported bracket is
the one at column 2 (index 1, the innermost), not the outer one at
column 1. -/
theorem C5_witness :
    scanBrackets progOpenOpen.instructions 0 [] [] =
      .ok ([], [(1, { instruction := RawInstructions.zeroJump, line := 1, position := 2 }),
                (0, { instruction := RawInstructions.zeroJump, line := 1, position := 1 })]) ∧
    progOpenOpen.validate_brackets = .error (openBracketMsg 1 2) ∧
    ∀ e ∈ [((1 : Nat), { instruction := RawInstructions.zeroJump, line := 1,
                          position := 2 : IntructionPosition }),
           ((0 : Nat), { instruction := RawInstructions.zeroJump, line := 1,
                          position := 1 : IntructionPosition })],
      e.1 ≤ (1 : Nat) :=
  ⟨rfl,
   (C5_theorem progOpenOpen []
      (1, { instruction := RawInstructions.zeroJump, line := 1, position := 2 })
      [(0, { instruction := RawInstructions.zeroJump, line := 1, position := 1 })] rfl).1,
   (C5_theorem progOpenOpen []
      (1, { instruction := RawInstructions.zeroJump, line := 1, position := 2 })
      [(0, { instruction := RawInstructions.zeroJump, line := 1, position := 1 })] rfl).2⟩

/- ------------------------------------------------------------------ -/
/- C6: the bracket map of a balanced program is a total involution -/

/-- C6: whenever `validate_brackets` succeeds with map `m`, every bracket
instruction index `i` of the program is in the domain of `m`, and the map
is an involution there: `m[m[i]] = i`. -/
theorem C6_theorem (p : BrainFuckProgram) (m : List (Nat × Nat))
    (hv : p.validate_brackets = .ok m) :
    ∀ i, i < p.instructions.length →
      ((p.instructions.getD i default).instruction = RawInstructions.zeroJump ∨
       (p.instructions.getD i default).instruction = RawInstructions.nonZeroJump) →
      ∃ j, mapGet m i = some j ∧ mapGet m j = some i := by
  unfold BrainFuckProgram.validate_brackets at hv
  cases hs : scanBrackets p.instructions 0 [] [] with
  | error e =>
    obtain ⟨l, c⟩ := e
    rw [hs] at hv
    simp at hv
  | ok mst =>
    obtain ⟨m2, st⟩ := mst
    rw [hs] at hv
    cases st with
    | cons top st2 =>
      obtain ⟨ti, tinstr⟩ := top
      simp at hv
    | nil =>
      have hm : m2 = m := by
        injection hv
      subst hm
      obtain ⟨hI, -, -, hcov⟩ :=
        scanBrackets_inv p.instructions 0 [] [] m2 [] hs scanInv_nil
      intro i hi hbr
      rcases hcov i hi hbr with ⟨j, hj⟩ | hin
      · rw [Nat.zero_add] at hj
        exact ⟨j, hj, hI.invol i j hj⟩
      · exact absurd hin (by simp [stKeys])

/-- Witness for C6: the clear-loop program, whose map pairs indices 0
and 2. -/
theorem C6_witness :
    (BrainFuckProgram.new "clearloop.bf" "[-]").validate_brackets = .ok [(2, 0), (0, 2)] ∧
    0 < (BrainFuckProgram.new "clearloop.bf" "[-]").instructions.length ∧
    ∃ j, mapGet [(2, 0), (0, 2)] 0 = some j ∧ mapGet [(2, 0), (0, 2)] j = some 0 :=
  ⟨rfl, by decide,
   C6_theorem (BrainFuckProgram.new "clearloop.bf" "[-]") [(2, 0), (0, 2)] rfl 0
     (by decide) (Or.inl rfl)⟩
